import Mathlib

/-!
Shallow embedding of the real-time vision/OCR/TTS pipeline
(`main.py`): configuration constants, the OCR text-cleaning pass
(`clean_ocr_text`), the text-detection post-processing (`detect_text`),
the stability filter (`check_text_stability`), the announcement queue
(`TTSEngine.speak`) and its speech worker (`TTSEngine._speech_worker`),
the per-frame arbitration step of `detection_worker`, and the
frame-queue offer of `camera_worker`.  External capabilities (EasyOCR,
BLIP, SAPI, the camera) are modelled as oracle inputs to the pure
steps, exactly as the code consumes their outputs.
-/

namespace RTVision

/-! ### Configuration constants (main.py lines 26-31) -/

/-- `OCR_CONFIDENCE_THRESHOLD = 0.6` -/
def OCR_CONFIDENCE_THRESHOLD : ℚ := 6 / 10

/-- `OCR_STABILITY_FRAMES = 2` -/
def OCR_STABILITY_FRAMES : Nat := 2

/-- `MAX_AUDIO_LENGTH = 15` -/
def MAX_AUDIO_LENGTH : Nat := 15

/-- `MIN_TEXT_LENGTH = 3` -/
def MIN_TEXT_LENGTH : Nat := 3

/-! ### Character classes and Python string primitives

The Python code uses `re.sub` character classes, `str.split()`,
`str.strip()`, `' '.join` and `str.isdigit`/`str.lower`.  We model the
ASCII behaviour of these (the classes `\w` and `\s` restricted to
ASCII), operating on `List Char`. -/

/-- Python regex `\w` (ASCII): letters, digits, underscore. -/
def isWordChar (c : Char) : Bool :=
  c.isAlphanum || c == '_'

/-- Python regex `\s` (ASCII): space, tab, newline, carriage return,
vertical tab, form feed. -/
def isSpaceChar (c : Char) : Bool :=
  c == ' ' || c == '\t' || c == '\n' || c == '\r' ||
    c == Char.ofNat 11 || c == Char.ofNat 12

/-- The characters kept by `re.sub(r'[^\w\s.,!?\x27\-]', '', text)`:
word characters, whitespace, and `. , ! ? ' -`
(`Char.ofNat 39` is the apostrophe). -/
def isKeptChar (c : Char) : Bool :=
  isWordChar c || isSpaceChar c || c == '.' || c == ',' || c == '!' ||
    c == '?' || c == Char.ofNat 39 || c == '-'

/-- `re.sub(r'\s+', ' ', text)`: every maximal run of whitespace is
replaced by a single space. -/
def collapseWs : List Char → List Char
  | [] => []
  | [c] => if isSpaceChar c then [' '] else [c]
  | c :: d :: rest =>
    if isSpaceChar c then
      if isSpaceChar d then collapseWs (d :: rest)
      else ' ' :: collapseWs (d :: rest)
    else c :: collapseWs (d :: rest)

/-- Negation of `isSpaceChar`, the continuation test of a word while
splitting. -/
def nonSpace (c : Char) : Bool := !isSpaceChar c

/-- Fuel-indexed worker for `splitWs` (structural recursion on the
fuel; the fuel is always at least the length of the list). -/
def splitWsF : Nat → List Char → List (List Char)
  | 0, _ => []
  | _ + 1, [] => []
  | fuel + 1, c :: rest =>
    if isSpaceChar c then splitWsF fuel rest
    else (c :: rest.takeWhile nonSpace) ::
      splitWsF fuel (rest.dropWhile nonSpace)

/-- Python `str.split()` (no separator argument): split on runs of
whitespace, discarding empty pieces. -/
def splitWs (l : List Char) : List (List Char) :=
  splitWsF l.length l

/-- Python `' '.join(words)` on the underlying character lists. -/
def joinWords : List (List Char) → List Char
  | [] => []
  | [w] => w
  | w :: w2 :: ws => w ++ ' ' :: joinWords (w2 :: ws)

/-- Python `str.strip()`: drop leading and trailing whitespace. -/
def stripChars (l : List Char) : List Char :=
  (((l.dropWhile isSpaceChar).reverse.dropWhile isSpaceChar)).reverse

/-- The word filter of `clean_ocr_text`:
`len(w) > 1 or w.lower() in ['a', 'i'] or w.isdigit()`. -/
def keepWord (w : List Char) : Bool :=
  decide (1 < w.length) || (w.map Char.toLower == ['a']) ||
    (w.map Char.toLower == ['i']) || (!w.isEmpty && w.all Char.isDigit)

/-- Python `text.strip()` on strings. -/
def pyStrip (s : String) : String :=
  String.mk (stripChars s.data)

/-- Python `text.split()` on strings. -/
def pySplit (s : String) : List String :=
  (splitWs s.data).map String.mk

/-- Python `' '.join(words)` on strings. -/
def spaceJoin (ws : List String) : String :=
  String.mk (joinWords (ws.map String.data))

/-! ### `clean_ocr_text` (main.py lines 145-167) -/

/-- The character-level body of `clean_ocr_text`: remove characters
outside the kept class, collapse whitespace runs, split into words,
drop single-character fragments (except `a`/`i`/digits), rejoin with
single spaces, and strip. -/
def cleanCore (l : List Char) : List Char :=
  stripChars (joinWords
    ((splitWs (collapseWs (l.filter isKeptChar))).filter keepWord))

/-- `clean_ocr_text(text)`: empty in, empty out; otherwise apply the
cleaning pipeline `cleanCore` to the characters. -/
def clean_ocr_text (s : String) : String :=
  if s = "" then "" else String.mk (cleanCore s.data)

/-! ### `TTSEngine.speak` (main.py lines 111-120) and the speech
worker body (main.py lines 83-100)

The speech queue is a `List String` (front = oldest).  `speak` ignores
empty/too-short text; otherwise it drains every pending entry with
`get_nowait` and then `put`s the new text. -/

/-- `TTSEngine.speak(text)`: enqueue with last-write-wins semantics. -/
def TTSEngine.speak (q : List String) (text : String) : List String :=
  if text ≠ "" ∧ 2 < (pyStrip text).length then [] ++ [text] else q

/-- Outcome of one iteration of `TTSEngine._speech_worker` on a
dequeued text: what (if anything) was handed to `speaker.Speak`, and
the updated `last_spoken` field. -/
structure SpeechWorkerResult where
  spoken : Option String
  lastSpoken : String
deriving Repr, DecidableEq

/-- One iteration of `TTSEngine._speech_worker` applied to a dequeued
`text` given the worker's `last_spoken` state: skip empty/short text,
skip a repeat of `last_spoken`, truncate to the first
`MAX_AUDIO_LENGTH` words, speak, and record the spoken string. -/
def TTSEngine.speechWorkerStep (lastSpoken : String) (text : String) :
    SpeechWorkerResult :=
  if text = "" ∨ (pyStrip text).length < 2 then ⟨none, lastSpoken⟩
  else if text = lastSpoken then ⟨none, lastSpoken⟩
  else
    let words := pySplit text
    let text := if MAX_AUDIO_LENGTH < words.length then
        spaceJoin (words.take MAX_AUDIO_LENGTH)
      else text
    ⟨some text, text⟩

/-! ### `check_text_stability` (main.py lines 279-307)

The Python function mutates the global `ocr_text_buffer`; we pass the
buffer explicitly and return the (result, new buffer) pair. -/

/-- `check_text_stability(detected_text)`: append to the buffer, keep
only the last `OCR_STABILITY_FRAMES` entries, and return the first
entry when the buffer is full, its first entry is non-empty, and all
remaining entries equal the first; otherwise return `""`.  The
`buf.all` conditional mirrors the source's redundant
`return "" if all(not text for text in ocr_text_buffer) else ""`. -/
def check_text_stability (buf : List String) (t : String) :
    String × List String :=
  let buf := buf ++ [t]
  let buf := if OCR_STABILITY_FRAMES < buf.length then buf.drop 1 else buf
  if buf.length < OCR_STABILITY_FRAMES then ("", buf)
  else
    let first := buf.headD ""
    if first = "" then
      ((if buf.all (fun x => x == "") then "" else ""), buf)
    else if (buf.drop 1).all (fun x => x == first) then (first, buf)
    else ("", buf)

/-! ### `detection_worker` (main.py lines 310-380): one cycle

The worker loop pulls a frame and runs OCR, the stability check, and
conditionally the vision model.  The external model outputs
(`detect_text(frame)` and `detect_objects(frame)`) enter as oracle
inputs `detectedText` and `caption`; the cycle records every
`tts.speak` call, whether `detect_objects` was invoked, and the value
of `ocr_mode_active` at the moment of that invocation. -/

/-- The mutable globals touched by one cycle of `detection_worker`. -/
structure PipelineState where
  currentText : String
  currentObjects : String
  currentAudio : String
  ocrTextBuffer : List String
  lastSpokenText : String
  ocrModeActive : Bool
  speechQueue : List String
deriving Repr, DecidableEq

/-- Result of one `detection_worker` cycle. -/
structure CycleResult where
  state : PipelineState
  speakCalls : List String
  objectsInvoked : Bool
  ocrModeAtObjectsCall : Option Bool
deriving Repr, DecidableEq

/-- Sentinel shown while object detection is paused. -/
def pausedSentinel : String := "[Paused during text reading]"

/-- One cycle of `detection_worker` on a frame whose OCR result is
`detectedText` and whose caption (if the vision model is consulted)
is `caption`. -/
def detectionCycle (s : PipelineState) (detectedText : String)
    (caption : String) : CycleResult :=
  let stb := check_text_stability s.ocrTextBuffer detectedText
  let stableText := stb.1
  let buf := stb.2
  let ct := if detectedText ≠ "" then detectedText else "No text detected"
  if stableText ≠ "" then
    -- stable text: enter OCR mode, speak if new, skip object detection
    if stableText ≠ s.lastSpokenText then
      { state := { currentText := ct, currentObjects := pausedSentinel,
                   currentAudio := stableText, ocrTextBuffer := buf,
                   lastSpokenText := stableText, ocrModeActive := true,
                   speechQueue := TTSEngine.speak s.speechQueue stableText },
        speakCalls := [stableText], objectsInvoked := false,
        ocrModeAtObjectsCall := none }
    else
      { state := { currentText := ct, currentObjects := pausedSentinel,
                   currentAudio := s.currentAudio, ocrTextBuffer := buf,
                   lastSpokenText := s.lastSpokenText, ocrModeActive := true,
                   speechQueue := s.speechQueue },
        speakCalls := [], objectsInvoked := false,
        ocrModeAtObjectsCall := none }
  else
    -- no stable text: leave OCR mode (resetting dedup), run the VLM
    let mode1 := if s.ocrModeActive then false else s.ocrModeActive
    let last1 := if s.ocrModeActive then "" else s.lastSpokenText
    let co := if caption ≠ "" then caption else "No objects detected"
    if caption ≠ "" ∧ caption ≠ last1 then
      { state := { currentText := ct, currentObjects := co,
                   currentAudio := caption, ocrTextBuffer := buf,
                   lastSpokenText := caption, ocrModeActive := mode1,
                   speechQueue := TTSEngine.speak s.speechQueue caption },
        speakCalls := [caption], objectsInvoked := true,
        ocrModeAtObjectsCall := some mode1 }
    else
      { state := { currentText := ct, currentObjects := co,
                   currentAudio := s.currentAudio, ocrTextBuffer := buf,
                   lastSpokenText := last1, ocrModeActive := mode1,
                   speechQueue := s.speechQueue },
        speakCalls := [], objectsInvoked := true,
        ocrModeAtObjectsCall := some mode1 }

/-! ### `camera_worker` frame-queue offer (main.py lines 411-413)

`if not frame_queue.full(): frame_queue.put(frame.copy())` on a queue
of `maxsize=2`; the front of the list is the oldest frame. -/

/-- One offer of a captured frame to the capacity-2 frame queue. -/
def cameraOffer {α : Type} (q : List α) (f : α) : List α :=
  if q.length < 2 then q ++ [f] else q

/-! ### `detect_text` post-processing (main.py lines 169-222)

One EasyOCR result is a (bbox, text, confidence) tuple; the sort key
is `(x[0][0][1], x[0][0][0])`, the first bbox corner's y then x
coordinate.  Confidences are modelled as rationals. -/

/-- One EasyOCR `readtext` result: first bbox corner and payload. -/
structure OcrResult where
  y : Int
  x : Int
  text : String
  confidence : ℚ
deriving DecidableEq

/-- Sort key order of `sorted(results, key=...)`: y ascending, then x
ascending. -/
def ocrKeyLe (a b : OcrResult) : Bool :=
  a.y < b.y || (a.y == b.y && a.x ≤ b.x)

/-- Insertion step for the reading-order sort. -/
def insertOcr (a : OcrResult) : List OcrResult → List OcrResult
  | [] => [a]
  | b :: l => if ocrKeyLe b a then b :: insertOcr a l else a :: b :: l

/-- Reading-order sort of the OCR results. -/
def sortOcr (l : List OcrResult) : List OcrResult :=
  l.foldr insertOcr []

/-- The `detected_texts` list built by `detect_text`: from the sorted
results, the stripped text of each entry with confidence above the
threshold and stripped length at least `MIN_TEXT_LENGTH`. -/
def detectedTexts (results : List OcrResult) : List String :=
  ((sortOcr results).filter (fun r =>
    OCR_CONFIDENCE_THRESHOLD < r.confidence ∧
      MIN_TEXT_LENGTH ≤ (pyStrip r.text).length)).map
    (fun r => pyStrip r.text)

/-- `detect_text(frame)` after the `readtext` call returned `results`:
sort into reading order, keep confident long-enough entries, join with
single spaces, clean, and re-check the minimum length on the cleaned
full text. -/
def detect_text (results : List OcrResult) : String :=
  if results = [] then ""
  else if detectedTexts results = [] then ""
  else if MIN_TEXT_LENGTH ≤
      (clean_ocr_text (spaceJoin (detectedTexts results))).length then
    clean_ocr_text (spaceJoin (detectedTexts results))
  else ""

/-- A sixteen-word text, used to exercise the speech worker's
word-count truncation. -/
def sixteenWords : String :=
  "alpha bravo charlie delta echo foxtrot golf hotel india juliett kilo lima mike november oscar papa"

/-- The first fifteen words of `sixteenWords`. -/
def fifteenWords : String :=
  "alpha bravo charlie delta echo foxtrot golf hotel india juliett kilo lima mike november oscar"

/-! ## Helper lemmas for the cleaning pipeline -/

theorem length_dropWhile_le' (p : Char → Bool) (l : List Char) :
    (l.dropWhile p).length ≤ l.length := by
  induction l with
  | nil => simp [List.dropWhile]
  | cons c rest ih =>
    rw [List.dropWhile_cons]
    by_cases h : p c
    · simp only [h, if_true]
      exact Nat.le_trans ih (Nat.le_succ _)
    · simp [h]

theorem splitWsF_mono :
    ∀ (f₁ : Nat) (f₂ : Nat) (l : List Char), l.length ≤ f₁ →
      l.length ≤ f₂ → splitWsF f₁ l = splitWsF f₂ l := by
  intro f₁
  induction f₁ with
  | zero =>
    intro f₂ l h1 _
    have hl : l = [] := List.eq_nil_of_length_eq_zero (Nat.le_zero.mp h1)
    subst hl
    cases f₂ <;> rfl
  | succ f ih =>
    intro f₂ l h1 h2
    cases l with
    | nil => cases f₂ <;> rfl
    | cons c rest =>
      cases f₂ with
      | zero => simp at h2
      | succ g =>
        simp only [splitWsF]
        by_cases hc : isSpaceChar c
        · simp only [hc, if_true]
          exact ih g rest (by simpa using h1) (by simpa using h2)
        · simp only [hc, Bool.false_eq_true, if_false]
          have hd1 : (rest.dropWhile nonSpace).length ≤ f :=
            Nat.le_trans (length_dropWhile_le' _ _) (by simpa using h1)
          have hd2 : (rest.dropWhile nonSpace).length ≤ g :=
            Nat.le_trans (length_dropWhile_le' _ _) (by simpa using h2)
          rw [ih g _ hd1 hd2]

theorem splitWs_nil : splitWs [] = [] := rfl

theorem splitWs_cons_space {c : Char} (l : List Char)
    (h : isSpaceChar c = true) : splitWs (c :: l) = splitWs l := by
  simp only [splitWs, List.length_cons, splitWsF, h, if_true]

theorem splitWs_cons_word {c : Char} (l : List Char)
    (h : isSpaceChar c = false) :
    splitWs (c :: l) =
      (c :: l.takeWhile nonSpace) :: splitWs (l.dropWhile nonSpace) := by
  simp only [splitWs, List.length_cons, splitWsF, h, Bool.false_eq_true,
    if_false]
  rw [splitWsF_mono l.length (l.dropWhile nonSpace).length _
    (length_dropWhile_le' _ _) (Nat.le_refl _)]

theorem takeWhile_append_all {p : Char → Bool} :
    ∀ (w l : List Char), (∀ c ∈ w, p c = true) →
      (w ++ l).takeWhile p = w ++ l.takeWhile p := by
  intro w
  induction w with
  | nil => intro l _; simp
  | cons c w ih =>
    intro l h
    have hc : p c = true := h c (List.mem_cons_self c w)
    simp only [List.cons_append, List.takeWhile_cons, hc, if_true]
    rw [ih l (fun d hd => h d (List.mem_cons_of_mem c hd))]

theorem dropWhile_append_all {p : Char → Bool} :
    ∀ (w l : List Char), (∀ c ∈ w, p c = true) →
      (w ++ l).dropWhile p = l.dropWhile p := by
  intro w
  induction w with
  | nil => intro l _; simp
  | cons c w ih =>
    intro l h
    have hc : p c = true := h c (List.mem_cons_self c w)
    simp only [List.cons_append, List.dropWhile_cons, hc, if_true]
    exact ih l (fun d hd => h d (List.mem_cons_of_mem c hd))

theorem takeWhile_all {p : Char → Bool} (w : List Char)
    (h : ∀ c ∈ w, p c = true) : w.takeWhile p = w := by
  have := takeWhile_append_all w [] h
  simpa using this

theorem dropWhile_all {p : Char → Bool} (w : List Char)
    (h : ∀ c ∈ w, p c = true) : w.dropWhile p = [] := by
  have := dropWhile_append_all w [] h
  simpa using this

theorem isSpaceChar_space : isSpaceChar ' ' = true := by decide

theorem nonSpace_space : nonSpace ' ' = false := by decide

theorem isKeptChar_space : isKeptChar ' ' = true := by decide

theorem nonSpace_of_not_space {c : Char} (h : isSpaceChar c = false) :
    nonSpace c = true := by
  simp [nonSpace, h]

theorem not_space_of_nonSpace {c : Char} (h : nonSpace c = true) :
    isSpaceChar c = false := by
  simpa [nonSpace] using h

theorem takeWhile_nonSpace_collapse :
    ∀ l : List Char, (collapseWs l).takeWhile nonSpace = l.takeWhile nonSpace := by
  intro l
  induction l with
  | nil => rfl
  | cons c rest ih =>
    cases rest with
    | nil =>
      cases h : isSpaceChar c
      · simp [collapseWs, h]
      · simp only [collapseWs, h, if_true]
        rw [List.takeWhile_cons, List.takeWhile_cons]
        simp [nonSpace, h, isSpaceChar_space]
    | cons d rest' =>
      cases hc : isSpaceChar c
      · simp only [collapseWs, hc, Bool.false_eq_true, if_false]
        rw [List.takeWhile_cons, List.takeWhile_cons]
        simp only [nonSpace, hc, Bool.not_false, if_true]
        rw [ih]
      · cases hd : isSpaceChar d
        · simp only [collapseWs, hc, hd, Bool.false_eq_true, if_true, if_false]
          rw [List.takeWhile_cons, List.takeWhile_cons]
          simp [nonSpace, hc, isSpaceChar_space]
        · simp only [collapseWs, hc, hd, if_true]
          rw [ih, List.takeWhile_cons, List.takeWhile_cons]
          simp [nonSpace, hc, hd]

theorem dropWhile_nonSpace_collapse :
    ∀ l : List Char,
      (collapseWs l).dropWhile nonSpace = collapseWs (l.dropWhile nonSpace) := by
  intro l
  induction l with
  | nil => rfl
  | cons c rest ih =>
    cases rest with
    | nil =>
      cases h : isSpaceChar c
      · simp [collapseWs, h, List.dropWhile_cons, nonSpace]
      · simp only [collapseWs, h, if_true]
        rw [List.dropWhile_cons, List.dropWhile_cons]
        simp [nonSpace, h, isSpaceChar_space, collapseWs]
    | cons d rest' =>
      cases hc : isSpaceChar c
      · simp only [collapseWs, hc, Bool.false_eq_true, if_false]
        rw [List.dropWhile_cons, List.dropWhile_cons]
        simp only [nonSpace, hc, Bool.not_false, if_true]
        exact ih
      · cases hd : isSpaceChar d
        · simp only [collapseWs, hc, hd, Bool.false_eq_true, if_true, if_false]
          rw [List.dropWhile_cons, List.dropWhile_cons]
          simp only [nonSpace, hc, isSpaceChar_space, Bool.not_true,
            Bool.false_eq_true, if_false]
          simp [collapseWs, hc, hd]
        · simp only [collapseWs, hc, hd, if_true]
          rw [ih, List.dropWhile_cons, List.dropWhile_cons]
          simp only [nonSpace, hc, hd, Bool.not_true, Bool.false_eq_true,
            if_false]
          simp [collapseWs, hc, hd]

theorem splitWs_dropWhile_space :
    ∀ l : List Char, splitWs (l.dropWhile isSpaceChar) = splitWs l := by
  intro l
  induction l with
  | nil => rfl
  | cons c rest ih =>
    by_cases h : isSpaceChar c
    · rw [List.dropWhile_cons, if_pos h, ih, splitWs_cons_space rest h]
    · rw [List.dropWhile_cons, if_neg (by simp [h])]

theorem splitWs_collapse_aux :
    ∀ (n : Nat) (l : List Char), l.length ≤ n →
      splitWs (collapseWs l) = splitWs l := by
  intro n
  induction n with
  | zero =>
    intro l h
    have hl : l = [] := List.eq_nil_of_length_eq_zero (Nat.le_zero.mp h)
    subst hl; rfl
  | succ n ih =>
    intro l h
    cases l with
    | nil => rfl
    | cons c rest =>
      cases rest with
      | nil =>
        by_cases hc : isSpaceChar c
        · simp only [collapseWs, hc, if_true]
          rw [splitWs_cons_space [] isSpaceChar_space, splitWs_cons_space [] hc]
        · simp [collapseWs, hc]
      | cons d rest' =>
        have hlen : (d :: rest').length ≤ n := by simpa using h
        by_cases hc : isSpaceChar c
        · by_cases hd : isSpaceChar d
          · simp only [collapseWs, hc, hd, if_true]
            rw [ih (d :: rest') hlen, splitWs_cons_space (d :: rest') hc]
          · simp only [collapseWs, hc, hd, Bool.false_eq_true, if_true, if_false]
            rw [splitWs_cons_space (collapseWs (d :: rest')) isSpaceChar_space,
              ih (d :: rest') hlen, splitWs_cons_space (d :: rest') hc]
        · simp only [collapseWs, hc, Bool.false_eq_true, if_false]
          rw [splitWs_cons_word (collapseWs (d :: rest')) (by simpa using hc),
            splitWs_cons_word (d :: rest') (by simpa using hc),
            takeWhile_nonSpace_collapse, dropWhile_nonSpace_collapse,
            ih ((d :: rest').dropWhile nonSpace)
              (Nat.le_trans (length_dropWhile_le' _ _) hlen)]

theorem splitWs_collapse (l : List Char) :
    splitWs (collapseWs l) = splitWs l :=
  splitWs_collapse_aux l.length l (Nat.le_refl _)

/-- A list of words is `goodWords` when each word is non-empty and
contains no whitespace — the shape of the output of `splitWs`. -/
def goodWords (ws : List (List Char)) : Prop :=
  ∀ w ∈ ws, w ≠ [] ∧ ∀ c ∈ w, isSpaceChar c = false

theorem splitWs_joinWords :
    ∀ ws : List (List Char), goodWords ws → splitWs (joinWords ws) = ws := by
  intro ws
  induction ws with
  | nil => intro _; rfl
  | cons w ws' ih =>
    intro h
    obtain ⟨hne, hns⟩ := h w (List.mem_cons_self w ws')
    obtain ⟨c, w', hw⟩ := List.exists_cons_of_ne_nil hne
    subst hw
    have hc : isSpaceChar c = false := hns c (List.mem_cons_self c w')
    have hw'ns : ∀ e ∈ w', nonSpace e = true := fun e he =>
      nonSpace_of_not_space (hns e (List.mem_cons_of_mem c he))
    cases ws' with
    | nil =>
      simp only [joinWords]
      rw [splitWs_cons_word w' hc, takeWhile_all w' hw'ns,
        dropWhile_all w' hw'ns, splitWs_nil]
    | cons w2 ws2 =>
      simp only [joinWords, List.cons_append]
      rw [splitWs_cons_word _ hc,
        takeWhile_append_all w' (' ' :: joinWords (w2 :: ws2)) hw'ns,
        dropWhile_append_all w' (' ' :: joinWords (w2 :: ws2)) hw'ns]
      rw [List.takeWhile_cons, List.dropWhile_cons]
      simp only [nonSpace_space, Bool.false_eq_true, if_false, List.append_nil]
      rw [splitWs_cons_space _ isSpaceChar_space]
      rw [ih (fun v hv => h v (List.mem_cons_of_mem _ hv))]

theorem mem_collapseWs :
    ∀ (l : List Char) (c : Char), c ∈ collapseWs l → c ∈ l ∨ c = ' ' := by
  intro l
  induction l with
  | nil => intro c hc; simp [collapseWs] at hc
  | cons a rest ih =>
    cases rest with
    | nil =>
      intro c hc
      by_cases h : isSpaceChar a
      · simp [collapseWs, h] at hc
        exact Or.inr hc
      · simp [collapseWs, h] at hc
        exact Or.inl (by simp [hc])
    | cons d rest' =>
      intro c hc
      by_cases ha : isSpaceChar a
      · by_cases hd : isSpaceChar d
        · simp only [collapseWs, ha, hd, if_true] at hc
          rcases ih c hc with h | h
          · exact Or.inl (List.mem_cons_of_mem a h)
          · exact Or.inr h
        · simp only [collapseWs, ha, hd, Bool.false_eq_true, if_true,
            if_false, List.mem_cons] at hc
          rcases hc with h | h
          · exact Or.inr h
          · rcases ih c h with h2 | h2
            · exact Or.inl (List.mem_cons_of_mem a h2)
            · exact Or.inr h2
      · simp only [collapseWs, ha, Bool.false_eq_true, if_false,
          List.mem_cons] at hc
        rcases hc with h | h
        · exact Or.inl (by simp [h])
        · rcases ih c h with h2 | h2
          · exact Or.inl (List.mem_cons_of_mem a h2)
          · exact Or.inr h2

theorem splitWs_words_aux :
    ∀ (n : Nat) (l : List Char), l.length ≤ n →
      ∀ w ∈ splitWs l, w ≠ [] ∧
        ∀ c ∈ w, isSpaceChar c = false ∧ c ∈ l := by
  intro n
  induction n with
  | zero =>
    intro l h w hw
    have hl : l = [] := List.eq_nil_of_length_eq_zero (Nat.le_zero.mp h)
    subst hl
    simp [splitWs_nil] at hw
  | succ n ih =>
    intro l h w hw
    cases l with
    | nil => simp [splitWs_nil] at hw
    | cons c rest =>
      have hrest : rest.length ≤ n := by simpa using h
      by_cases hc : isSpaceChar c
      · rw [splitWs_cons_space rest hc] at hw
        obtain ⟨h1, h2⟩ := ih rest hrest w hw
        exact ⟨h1, fun e he =>
          ⟨(h2 e he).1, List.mem_cons_of_mem c (h2 e he).2⟩⟩
      · rw [splitWs_cons_word rest (by simpa using hc)] at hw
        rcases List.mem_cons.mp hw with hw1 | hw2
        · subst hw1
          refine ⟨by simp, ?_⟩
          intro e he
          rcases List.mem_cons.mp he with he1 | he2
          · subst he1
            exact ⟨by simpa using hc, List.mem_cons_self _ _⟩
          · have hns : nonSpace e = true := List.mem_takeWhile_imp he2
            have hmem : e ∈ rest :=
              (List.takeWhile_sublist _).subset he2
            exact ⟨not_space_of_nonSpace hns, List.mem_cons_of_mem c hmem⟩
        · obtain ⟨h1, h2⟩ := ih (rest.dropWhile nonSpace)
            (Nat.le_trans (length_dropWhile_le' _ _) hrest) w hw2
          refine ⟨h1, fun e he => ⟨(h2 e he).1, ?_⟩⟩
          have : e ∈ rest := (List.dropWhile_sublist _).subset (h2 e he).2
          exact List.mem_cons_of_mem c this

theorem mem_joinWords :
    ∀ (ws : List (List Char)) (c : Char), c ∈ joinWords ws →
      (∃ w ∈ ws, c ∈ w) ∨ c = ' ' := by
  intro ws
  induction ws with
  | nil => intro c hc; simp [joinWords] at hc
  | cons w ws' ih =>
    cases ws' with
    | nil =>
      intro c hc
      simp only [joinWords] at hc
      exact Or.inl ⟨w, List.mem_cons_self _ _, hc⟩
    | cons w2 ws2 =>
      intro c hc
      simp only [joinWords, List.mem_append, List.mem_cons] at hc
      rcases hc with h | h | h
      · exact Or.inl ⟨w, List.mem_cons_self _ _, h⟩
      · exact Or.inr h
      · rcases ih c h with ⟨v, hv, hcv⟩ | h2
        · exact Or.inl ⟨v, List.mem_cons_of_mem w hv, hcv⟩
        · exact Or.inr h2

theorem mem_stripChars {l : List Char} {c : Char}
    (h : c ∈ stripChars l) : c ∈ l := by
  simp only [stripChars, List.mem_reverse] at h
  have h2 := (List.dropWhile_sublist _).subset h
  rw [List.mem_reverse] at h2
  exact (List.dropWhile_sublist _).subset h2

theorem reverse_joinWords_head :
    ∀ ws : List (List Char), ws ≠ [] → goodWords ws →
      ∃ c t, (joinWords ws).reverse = c :: t ∧ isSpaceChar c = false := by
  intro ws
  induction ws with
  | nil => intro h; exact absurd rfl h
  | cons w ws' ih =>
    intro _ hg
    obtain ⟨hne, hns⟩ := hg w (List.mem_cons_self w ws')
    cases ws' with
    | nil =>
      have : w.reverse ≠ [] := by simpa using hne
      obtain ⟨c, t, hct⟩ := List.exists_cons_of_ne_nil this
      refine ⟨c, t, by simpa [joinWords] using hct, ?_⟩
      have : c ∈ w.reverse := by rw [hct]; exact List.mem_cons_self _ _
      exact hns c (List.mem_reverse.mp this)
    | cons w2 ws2 =>
      obtain ⟨c, t, hct, hc⟩ := ih (by simp)
        (fun v hv => hg v (List.mem_cons_of_mem w hv))
      refine ⟨c, t ++ ' ' :: w.reverse, ?_, hc⟩
      simp only [joinWords, List.reverse_append, List.reverse_cons]
      rw [hct]
      simp

theorem stripChars_joinWords (ws : List (List Char)) (hg : goodWords ws) :
    stripChars (joinWords ws) = joinWords ws := by
  cases ws with
  | nil => rfl
  | cons w ws' =>
    obtain ⟨hne, hns⟩ := hg w (List.mem_cons_self w ws')
    obtain ⟨c, w', hw⟩ := List.exists_cons_of_ne_nil hne
    have hc : isSpaceChar c = false := by
      exact hns c (by rw [hw]; exact List.mem_cons_self _ _)
    have hhead : ∃ t, joinWords (w :: ws') = c :: t := by
      cases ws' with
      | nil => exact ⟨w', by simp [joinWords, hw]⟩
      | cons w2 ws2 =>
        exact ⟨w' ++ ' ' :: joinWords (w2 :: ws2), by simp [joinWords, hw]⟩
    obtain ⟨t, ht⟩ := hhead
    obtain ⟨c2, t2, hct2, hc2⟩ :=
      reverse_joinWords_head (w :: ws') (by simp) hg
    unfold stripChars
    rw [ht, List.dropWhile_cons, if_neg (by simp [hc]), ← ht, hct2,
      List.dropWhile_cons, if_neg (by simp [hc2]), ← hct2,
      List.reverse_reverse]

theorem goodWords_cleanWords (l : List Char) :
    goodWords ((splitWs (collapseWs (l.filter isKeptChar))).filter keepWord) := by
  intro w hw
  have hw' : w ∈ splitWs (collapseWs (l.filter isKeptChar)) :=
    List.mem_of_mem_filter hw
  obtain ⟨h1, h2⟩ := splitWs_words_aux
    (collapseWs (l.filter isKeptChar)).length _ (Nat.le_refl _) w hw'
  exact ⟨h1, fun c hc => (h2 c hc).1⟩

theorem cleanCore_eq_joinWords (l : List Char) :
    cleanCore l =
      joinWords ((splitWs (collapseWs (l.filter isKeptChar))).filter keepWord) := by
  unfold cleanCore
  exact stripChars_joinWords _ (goodWords_cleanWords l)

theorem mem_cleanCore_kept (l : List Char) (c : Char)
    (h : c ∈ cleanCore l) : isKeptChar c = true := by
  rw [cleanCore_eq_joinWords] at h
  rcases mem_joinWords _ c h with ⟨w, hw, hcw⟩ | hsp
  · have hw' : w ∈ splitWs (collapseWs (l.filter isKeptChar)) :=
      List.mem_of_mem_filter hw
    obtain ⟨_, h2⟩ := splitWs_words_aux
      (collapseWs (l.filter isKeptChar)).length _ (Nat.le_refl _) w hw'
    have hcm : c ∈ collapseWs (l.filter isKeptChar) := (h2 c hcw).2
    rcases mem_collapseWs _ c hcm with hcf | hsp2
    · exact List.of_mem_filter hcf
    · rw [hsp2]; exact isKeptChar_space
  · rw [hsp]; exact isKeptChar_space

theorem cleanCore_idem (l : List Char) :
    cleanCore (cleanCore l) = cleanCore l := by
  have hgood := goodWords_cleanWords l
  have hjoin := cleanCore_eq_joinWords l
  set ws := (splitWs (collapseWs (l.filter isKeptChar))).filter keepWord
    with hws
  have hkeep : ws.filter keepWord = ws :=
    List.filter_eq_self.mpr (fun w hw => List.of_mem_filter (hws ▸ hw))
  have hfilter : (cleanCore l).filter isKeptChar = cleanCore l :=
    List.filter_eq_self.mpr (fun c hc => mem_cleanCore_kept l c hc)
  have step1 : cleanCore (cleanCore l) =
      stripChars (joinWords ((splitWs (collapseWs
        ((cleanCore l).filter isKeptChar))).filter keepWord)) := rfl
  rw [step1, hfilter, hjoin, splitWs_collapse, splitWs_joinWords ws hgood,
    hkeep, stripChars_joinWords ws hgood, ← hjoin]

theorem clean_ocr_text_fix (s : String) :
    clean_ocr_text (clean_ocr_text s) = clean_ocr_text s := by
  by_cases h : s = ""
  · subst h; rfl
  · have h1 : clean_ocr_text s = String.mk (cleanCore s.data) := by
      unfold clean_ocr_text
      rw [if_neg h]
    rw [h1]
    by_cases h2 : String.mk (cleanCore s.data) = ""
    · rw [h2]; rfl
    · have h3 : clean_ocr_text (String.mk (cleanCore s.data)) =
          String.mk (cleanCore (cleanCore s.data)) := by
        unfold clean_ocr_text
        rw [if_neg h2]
      rw [h3, cleanCore_idem]

/-! ## Claims -/

/-- Claim C8: the OCR text-cleaning function is idempotent — for every
input string `x`, applying `clean_ocr_text` to the output of
`clean_ocr_text` yields the same string. -/
theorem claim_C8_clean_idempotent (x : String) :
    clean_ocr_text (clean_ocr_text x) = clean_ocr_text x :=
  clean_ocr_text_fix x

/-- Claim C9: for every list of OCR results, `detect_text` returns
either the empty string or a cleaned string (a fixed point of
`clean_ocr_text`) whose length is at least `MIN_TEXT_LENGTH` (3),
because the minimum-length check is re-applied after cleaning. -/
theorem claim_C9_detect_text_min_length (results : List OcrResult) :
    detect_text results = "" ∨
      (MIN_TEXT_LENGTH ≤ (detect_text results).length ∧
        clean_ocr_text (detect_text results) = detect_text results) := by
  unfold detect_text
  split
  · exact Or.inl rfl
  · split
    · exact Or.inl rfl
    · split
      · next h => exact Or.inr ⟨h, clean_ocr_text_fix _⟩
      · exact Or.inl rfl

/-- Claim C10: `TTSEngine.speak` inserts its argument as the sole
pending entry exactly when the text is non-empty and its stripped
length is strictly greater than 2; in every other case the speech
queue is left completely unchanged. -/
theorem claim_C10_speak_filter (q : List String) (t : String) :
    (t ≠ "" ∧ 2 < (pyStrip t).length → TTSEngine.speak q t = [t]) ∧
      (¬(t ≠ "" ∧ 2 < (pyStrip t).length) → TTSEngine.speak q t = q) := by
  constructor
  · intro h
    simp [TTSEngine.speak, h]
  · intro h
    simp only [TTSEngine.speak, if_neg h]

/-- Witness for C10: a concrete valid text replaces the pending
entry. -/
theorem claim_C10_witness :
    TTSEngine.speak ["old caption"] "new caption" = ["new caption"] :=
  (claim_C10_speak_filter ["old caption"] "new caption").1 (by decide)

/-- Claim C4: enqueuing `A` then `B` (both passing the length filter)
with no intervening dequeue leaves exactly one pending entry, `B`
(last-write-wins, not FIFO). -/
theorem claim_C4_last_write_wins (q : List String) (A B : String)
    (hA : A ≠ "" ∧ 2 < (pyStrip A).length)
    (hB : B ≠ "" ∧ 2 < (pyStrip B).length) :
    TTSEngine.speak (TTSEngine.speak q A) B = [B] := by
  simp [TTSEngine.speak, hA, hB]

/-- Witness for C4: two concrete valid texts; only the second
survives. -/
theorem claim_C4_witness :
    TTSEngine.speak (TTSEngine.speak [] "hello there") "good morning" =
      ["good morning"] :=
  claim_C4_last_write_wins [] "hello there" "good morning"
    (by decide) (by decide)

/-- Claim C2 counterexample: with the capacity-2 frame queue already
holding frames `0` and `1`, offering frame `2` leaves the queue
unchanged (`[0, 1]`): the code drops the NEW frame, it does not evict
the oldest and insert the new one (`[1, 2]`) as the drop-oldest claim
states. -/
theorem claim_C2_counterexample :
    cameraOffer [0, 1] 2 = [0, 1] ∧ cameraOffer [0, 1] 2 ≠ [1, 2] := by
  decide

/-- Claim C2 (amended): for every capture step in which the capacity-2
frame queue is already full, the capture loop never blocks (the offer
is a total function) and the newly captured frame is dropped: the
queue keeps its existing frames unchanged (drop-newest, not
drop-oldest). -/
theorem claim_C2_amended {α : Type} (q : List α) (f : α)
    (h : ¬q.length < 2) : cameraOffer q f = q := by
  simp only [cameraOffer, if_neg h]

/-- Witness for the amended C2: a full queue is returned unchanged. -/
theorem claim_C2_witness : cameraOffer [0, 1] 5 = [0, 1] :=
  claim_C2_amended [0, 1] 5 (by decide)

/-- Claim C3: starting from any buffer respecting the program
invariant (length at most `OCR_STABILITY_FRAMES`), an observation `t`
is returned exactly when the updated window has reached capacity
`OCR_STABILITY_FRAMES = 2`, its first entry is non-empty, and every
entry equals that first entry; in every other case — window not yet
full, any entry differing, or all entries empty — the empty string is
returned. -/
theorem claim_C3_stability_characterisation (buf : List String)
    (t : String) (hlen : buf.length ≤ OCR_STABILITY_FRAMES) :
    (check_text_stability buf t).1 =
      if ((check_text_stability buf t).2.length = OCR_STABILITY_FRAMES ∧
          (check_text_stability buf t).2.headD "" ≠ "" ∧
          ∀ x ∈ (check_text_stability buf t).2,
            x = (check_text_stability buf t).2.headD "")
      then t else "" := by
  match buf with
  | [] =>
    simp [check_text_stability, OCR_STABILITY_FRAMES]
  | [a] =>
    by_cases ha : a = ""
    · by_cases hta : t = a <;>
        simp_all [check_text_stability, OCR_STABILITY_FRAMES]
    · by_cases hta : t = a <;>
        simp_all [check_text_stability, OCR_STABILITY_FRAMES]
  | [a, b] =>
    by_cases hb : b = ""
    · by_cases htb : t = b <;>
        simp_all [check_text_stability, OCR_STABILITY_FRAMES]
    · by_cases htb : t = b <;>
        simp_all [check_text_stability, OCR_STABILITY_FRAMES]
  | a :: b :: c :: rest =>
    exfalso
    simp [OCR_STABILITY_FRAMES] at hlen

/-- Witness for C3: two identical non-empty observations make the
second call return the text. -/
theorem claim_C3_witness :
    (check_text_stability ["STOP"] "STOP").1 =
      if ((check_text_stability ["STOP"] "STOP").2.length =
            OCR_STABILITY_FRAMES ∧
          (check_text_stability ["STOP"] "STOP").2.headD "" ≠ "" ∧
          ∀ x ∈ (check_text_stability ["STOP"] "STOP").2,
            x = (check_text_stability ["STOP"] "STOP").2.headD "")
      then "STOP" else "" :=
  claim_C3_stability_characterisation ["STOP"] "STOP" (by decide)

/-! ## Helper lemmas about one `detection_worker` cycle -/

theorem cycle_lastSpoken_stable (s : PipelineState) (d c : String)
    (h : (check_text_stability s.ocrTextBuffer d).1 ≠ "") :
    (detectionCycle s d c).state.lastSpokenText =
      (check_text_stability s.ocrTextBuffer d).1 := by
  unfold detectionCycle
  by_cases h2 :
      (check_text_stability s.ocrTextBuffer d).1 ≠ s.lastSpokenText <;>
    simp_all

theorem cycle_noSpeak_stable_eq (s : PipelineState) (d c : String)
    (h : (check_text_stability s.ocrTextBuffer d).1 ≠ "")
    (h2 : (check_text_stability s.ocrTextBuffer d).1 = s.lastSpokenText) :
    (detectionCycle s d c).speakCalls = [] := by
  unfold detectionCycle
  simp_all

theorem cycle_mode_false (s : PipelineState) (d c : String)
    (h : (check_text_stability s.ocrTextBuffer d).1 = "") :
    (detectionCycle s d c).state.ocrModeActive = false := by
  unfold detectionCycle
  rw [if_neg (by simp [h])]
  cases hm : s.ocrModeActive <;> simp [hm] <;> split <;> simp

theorem cycle_lastSpoken_caption (s : PipelineState) (d c : String)
    (h : (check_text_stability s.ocrTextBuffer d).1 = "")
    (hc : c ≠ "") :
    (detectionCycle s d c).state.lastSpokenText = c := by
  unfold detectionCycle
  by_cases h2 : c = (if s.ocrModeActive then "" else s.lastSpokenText) <;>
    cases hm : s.ocrModeActive <;> simp_all

theorem cycle_noSpeak_caption_eq (s : PipelineState) (d c : String)
    (h : (check_text_stability s.ocrTextBuffer d).1 = "")
    (hm : s.ocrModeActive = false)
    (hc : c = s.lastSpokenText) :
    (detectionCycle s d c).speakCalls = [] := by
  unfold detectionCycle
  simp_all

/-! ## Claims about the arbitration cycle -/

/-- Claim C5: in every detection cycle, the object describer is never
consulted while the OCR mode flag is true — the flag observed at the
moment of the `detect_objects` call is never `true` — and whenever
stable text is present, object detection is skipped entirely and the
flag is set. -/
theorem claim_C5_mode_exclusivity (s : PipelineState) (d c : String) :
    (detectionCycle s d c).ocrModeAtObjectsCall ≠ some true ∧
      ((check_text_stability s.ocrTextBuffer d).1 ≠ "" →
        (detectionCycle s d c).objectsInvoked = false ∧
          (detectionCycle s d c).state.ocrModeActive = true) := by
  by_cases hst : (check_text_stability s.ocrTextBuffer d).1 = ""
  · constructor
    · unfold detectionCycle
      rw [if_neg (by simp [hst])]
      cases hm : s.ocrModeActive <;> simp [hm] <;> split <;> simp
    · intro h
      exact absurd hst h
  · constructor
    · unfold detectionCycle
      rw [if_pos hst]
      split <;> simp
    · intro _
      unfold detectionCycle
      rw [if_pos hst]
      split <;> simp

/-- Witness for C5: a cycle with stable text skips the object
describer and sets the mode flag. -/
theorem claim_C5_witness :
    (detectionCycle ⟨"", "", "", ["STOP"], "", false, []⟩
        "STOP" "a cat").objectsInvoked = false ∧
      (detectionCycle ⟨"", "", "", ["STOP"], "", false, []⟩
        "STOP" "a cat").state.ocrModeActive = true :=
  (claim_C5_mode_exclusivity ⟨"", "", "", ["STOP"], "", false, []⟩
    "STOP" "a cat").2 (by decide)

/-- Claim C6: a cycle with no stable text while the mode flag was true
clears the flag and resets the last-spoken string, so a non-empty
caption in that same cycle is passed to the announcement enqueue (and
recorded as last-spoken) even if it equals the pre-OCR last-spoken
caption. -/
theorem claim_C6_mode_exit_reset (s : PipelineState) (d caption : String)
    (hmode : s.ocrModeActive = true)
    (hst : (check_text_stability s.ocrTextBuffer d).1 = "")
    (hcap : caption ≠ "") :
    (detectionCycle s d caption).state.ocrModeActive = false ∧
      (detectionCycle s d caption).speakCalls = [caption] ∧
      (detectionCycle s d caption).state.lastSpokenText = caption := by
  unfold detectionCycle
  simp_all

/-- Witness for C6: the caption equals the pre-OCR last-spoken string
and is still announced after the mode exit. -/
theorem claim_C6_witness :
    (detectionCycle ⟨"", "", "", ["sign"], "a red car", true, []⟩
        "" "a red car").state.ocrModeActive = false ∧
      (detectionCycle ⟨"", "", "", ["sign"], "a red car", true, []⟩
        "" "a red car").speakCalls = ["a red car"] ∧
      (detectionCycle ⟨"", "", "", ["sign"], "a red car", true, []⟩
        "" "a red car").state.lastSpokenText = "a red car" :=
  claim_C6_mode_exit_reset ⟨"", "", "", ["sign"], "a red car", true, []⟩
    "" "a red car" rfl (by decide) (by decide)

/-- Claim C7: two consecutive cycles producing the same stable text,
or both producing no stable text and the same non-empty caption, never
yield an announcement enqueue in the second cycle. -/
theorem claim_C7_dedup_consecutive (s : PipelineState)
    (d1 c1 d2 c2 : String)
    (h : ((check_text_stability s.ocrTextBuffer d1).1 ≠ "" ∧
          (check_text_stability
              (detectionCycle s d1 c1).state.ocrTextBuffer d2).1 =
            (check_text_stability s.ocrTextBuffer d1).1) ∨
        ((check_text_stability s.ocrTextBuffer d1).1 = "" ∧
          (check_text_stability
              (detectionCycle s d1 c1).state.ocrTextBuffer d2).1 = "" ∧
          c1 = c2 ∧ c1 ≠ "")) :
    (detectionCycle (detectionCycle s d1 c1).state d2 c2).speakCalls = [] := by
  rcases h with ⟨h1, h2⟩ | ⟨h1, h2, h3, h4⟩
  · apply cycle_noSpeak_stable_eq _ d2 c2
    · rw [h2]
      exact h1
    · rw [h2, cycle_lastSpoken_stable s d1 c1 h1]
  · apply cycle_noSpeak_caption_eq _ d2 c2 h2 (cycle_mode_false s d1 c1 h1)
    rw [cycle_lastSpoken_caption s d1 c1 h1 h4]
    exact h3.symm

/-- Witness for C7: the same stable text in two consecutive cycles is
announced only once. -/
theorem claim_C7_witness :
    (detectionCycle
        (detectionCycle ⟨"", "", "", ["STOP"], "", false, []⟩
          "STOP" "a cat").state "STOP" "a cat").speakCalls = [] :=
  claim_C7_dedup_consecutive ⟨"", "", "", ["STOP"], "", false, []⟩
    "STOP" "a cat" "STOP" "a cat" (Or.inl (by constructor <;> decide))

/-- Claim C1 counterexample: a sixteen-word stable OCR text is
enqueued to the announcement queue verbatim, but the speech worker
does NOT hand it to the synthesizer verbatim — it truncates it to the
first fifteen words, although it is an OCR announcement. -/
theorem claim_C1_counterexample :
    (detectionCycle ⟨"", "", "", [sixteenWords], "", false, []⟩
        sixteenWords "").speakCalls = [sixteenWords] ∧
      (detectionCycle ⟨"", "", "", [sixteenWords], "", false, []⟩
        sixteenWords "").state.speechQueue = [sixteenWords] ∧
      (TTSEngine.speechWorkerStep "" sixteenWords).spoken ≠
        some sixteenWords ∧
      (TTSEngine.speechWorkerStep "" sixteenWords).spoken =
        some fifteenWords := by
  refine ⟨by decide, by decide, ?_, by decide⟩
  decide

/-- Claim C1 (amended): when the arbiter announces stable OCR text it
calls the enqueue with the stable text verbatim (no truncation at
enqueue), but the speech worker applies the `MAX_AUDIO_LENGTH`
(15-word) cap to every dequeued announcement, OCR and non-OCR alike,
before handing it to the speech synthesizer. -/
theorem claim_C1_amended (s : PipelineState) (d c ls t : String) :
    ((check_text_stability s.ocrTextBuffer d).1 ≠ "" →
      (check_text_stability s.ocrTextBuffer d).1 ≠ s.lastSpokenText →
      (detectionCycle s d c).speakCalls =
        [(check_text_stability s.ocrTextBuffer d).1]) ∧
    (t ≠ "" → ¬(pyStrip t).length < 2 → t ≠ ls →
      (TTSEngine.speechWorkerStep ls t).spoken =
        some (if MAX_AUDIO_LENGTH < (pySplit t).length then
          spaceJoin ((pySplit t).take MAX_AUDIO_LENGTH) else t)) := by
  constructor
  · intro h1 h2
    unfold detectionCycle
    rw [if_pos h1, if_pos h2]
  · intro h1 h2 h3
    unfold TTSEngine.speechWorkerStep
    rw [if_neg (by simp [h1, h2]), if_neg h3]

/-- Witness for the amended C1: the sixteen-word stable text is
enqueued verbatim and then truncated to fifteen words by the
worker. -/
theorem claim_C1_witness :
    (detectionCycle ⟨"", "", "", [sixteenWords], "", false, []⟩
        sixteenWords "").speakCalls = [sixteenWords] ∧
      (TTSEngine.speechWorkerStep "" sixteenWords).spoken =
        some fifteenWords := by
  have h := claim_C1_amended ⟨"", "", "", [sixteenWords], "", false, []⟩
    sixteenWords "" "" sixteenWords
  refine ⟨?_, ?_⟩
  · have h1 := h.1 (by decide) (by decide)
    rw [h1]
    decide
  · have h2 := h.2 (by decide) (by decide) (by decide)
    rw [h2]
    decide

end RTVision
